import Mathlib

set_option maxRecDepth 100000

/-!
Verification of the stats-translation core of unbound_exporter
(src/unbound_exporter.go) against its specification.

Shallow-embedding conventions:
* The input stream is taken as the list of its lines, as produced by the
  bufio line scanner in CollectFromReader (the transport is an external
  collaborator and is out of scope).
* Go float64 values are modelled as exact rationals; strconv.ParseFloat is
  modelled on its decimal forms (optional sign, integer part, fraction,
  optional exponent).  The special forms Inf/NaN, hexadecimal floats and
  digit-group underscores are elided from the model, as is IEEE rounding.
* Go uint64 is modelled as Nat with an explicit reduction modulo 2 ^ 64 at
  every arithmetic step that the source performs on uint64.
* The Go map from float64 to uint64 is modelled as an association list with
  overwriting insertion; by construction its keys are pairwise distinct,
  which is the map invariant.  The source sorts the keys before the
  cumulative pass, so map iteration order is irrelevant; the model sorts the
  (key, value) pairs by key.
* The regular expressions of the catalog are transcribed into a small
  anchored pattern language: a pattern is a sequence of literal strings and
  capture groups, the groups being one of the three character-class shapes
  that occur in the source.  For every pattern in the source, the character
  class of each group excludes the first character of the literal that
  follows it (or the group ends the key), so the greedy maximal-munch
  matcher below agrees with full regular-expression matching for exactly
  these patterns.
* MustNewConstMetric sends a metric on the collector channel; the model
  accumulates the sent metrics in a list, in emission order.  Metric
  descriptions are inert documentation and are elided from the model.
-/

/-- Character classes of the capture groups occurring in the catalog:
word characters (the regexp forms back-w-plus and bracketed back-w-plus),
digits (the regexp forms back-d-plus and bracketed 0-9-plus), and a decimal
literal of shape digits, dot, digits (the bound groups of the histogram
pattern). -/
inductive CapCls where
  | wordPlus
  | digitPlus
  | decim
deriving DecidableEq, Repr

/-- One element of an anchored pattern: a literal run of characters or a
capture group. -/
inductive Tok where
  | lit (s : List Char)
  | grp (g : CapCls)
deriving DecidableEq, Repr

/-- Word characters as Go RE2 defines them without Unicode classes:
ASCII letters, digits and underscore. -/
def isWordChar (c : Char) : Bool := c.isAlphanum || c = '_'

/-- Longest nonempty run of characters satisfying p, with the remainder;
none if the first character already fails p. -/
def takeWhile1 (p : Char → Bool) (cs : List Char) : Option (List Char × List Char) :=
  match cs.takeWhile p with
  | [] => none
  | d :: ds => some (d :: ds, cs.dropWhile p)

/-- Greedy match of one capture group against a prefix of the input,
returning the captured characters and the remainder. -/
def matchGrp : CapCls → List Char → Option (List Char × List Char)
  | CapCls.wordPlus, cs => takeWhile1 isWordChar cs
  | CapCls.digitPlus, cs => takeWhile1 Char.isDigit cs
  | CapCls.decim, cs =>
    match takeWhile1 Char.isDigit cs with
    | some (d1, r1) =>
      match r1 with
      | '.' :: r2 =>
        match takeWhile1 Char.isDigit r2 with
        | some (d2, r3) => some (d1 ++ '.' :: d2, r3)
        | none => none
      | _ => none
    | none => none

/-- Strip an exact literal run of characters from the front of the input. -/
def stripLit : List Char → List Char → Option (List Char)
  | [], cs => some cs
  | _ :: _, [] => none
  | l :: ls, c :: cs => if c = l then stripLit ls cs else none

/-- Anchored match of a whole pattern against a whole key, returning the
list of captured groups in pattern order (FindStringSubmatch without the
leading whole-match entry, on these anchored patterns). -/
def matchToks : List Tok → List Char → Option (List (List Char))
  | [], [] => some []
  | [], _ :: _ => none
  | Tok.lit s :: ts, cs =>
    match stripLit s cs with
    | some rest => matchToks ts rest
    | none => none
  | Tok.grp g :: ts, cs =>
    match matchGrp g cs with
    | some (cap, rest) =>
      match matchToks ts rest with
      | some caps => some (cap :: caps)
      | none => none
    | none => none

/-- Numeric value of a run of decimal digits. -/
def digitsVal (ds : List Char) : Nat := ds.foldl (fun acc c => 10 * acc + (c.toNat - 48)) 0

/-- Optional leading sign of a decimal float literal. -/
def floatSign (cs : List Char) : ℚ × List Char :=
  match cs with
  | '+' :: r => (1, r)
  | '-' :: r => (-1, r)
  | r => (1, r)

/-- Mantissa of a decimal float literal: digits, optionally followed by a
dot and further digits, at least one digit in total. -/
def parseMantissa (cs : List Char) : Option (ℚ × List Char) :=
  let d1 := cs.takeWhile Char.isDigit
  let r1 := cs.dropWhile Char.isDigit
  match r1 with
  | '.' :: r2 =>
    let d2 := r2.takeWhile Char.isDigit
    let r3 := r2.dropWhile Char.isDigit
    if d1 = [] ∧ d2 = [] then none
    else some ((digitsVal d1 : ℚ) + (digitsVal d2 : ℚ) / (10 : ℚ) ^ d2.length, r3)
  | _ =>
    if d1 = [] then none
    else some ((digitsVal d1 : ℚ), r1)

/-- Optional sign of an exponent part. -/
def expSign (cs : List Char) : Int × List Char :=
  match cs with
  | '+' :: r => (1, r)
  | '-' :: r => (-1, r)
  | r => (1, r)

/-- Exponent digits after the e or E marker. -/
def parseExpPart (cs : List Char) : Option (Int × List Char) :=
  let s := expSign cs
  match takeWhile1 Char.isDigit s.2 with
  | some (ds, r) => some (s.1 * (digitsVal ds : Int), r)
  | none => none

/-- Integer power of ten over the rationals. -/
def qpow10 (e : Int) : ℚ := if 0 ≤ e then (10 : ℚ) ^ e.toNat else 1 / (10 : ℚ) ^ (-e).toNat

/-- Model of strconv.ParseFloat with bitSize 64 on its decimal forms, the
result taken as an exact rational (see the header for the elided special
forms). -/
def parseQ (cs : List Char) : Option ℚ :=
  let s := floatSign cs
  match parseMantissa s.2 with
  | some (m, r1) =>
    match r1 with
    | [] => some (s.1 * m)
    | 'e' :: r2 =>
      match parseExpPart r2 with
      | some (ex, r3) => if r3 = [] then some (s.1 * m * qpow10 ex) else none
      | none => none
    | 'E' :: r2 =>
      match parseExpPart r2 with
      | some (ex, r3) => if r3 = [] then some (s.1 * m * qpow10 ex) else none
      | none => none
    | _ => none
  | none => none

/-- Model of strconv.ParseUint with base 10 and bitSize 64: a nonempty run
of decimal digits whose value fits in 64 bits; none on any other input
(Go returns a non-nil error in exactly those cases). -/
def parseUint64 (cs : List Char) : Option Nat :=
  match cs with
  | [] => none
  | _ :: _ =>
    if cs.all Char.isDigit then
      if digitsVal cs < 2 ^ 64 then some (digitsVal cs) else none
    else none

/-- Model of strings.Split of a line on the one-character separator =. -/
def splitEq : List Char → List (List Char)
  | [] => [[]]
  | c :: rest =>
    let r := splitEq rest
    if c = '=' then [] :: r
    else
      match r with
      | f :: fs => (c :: f) :: fs
      | [] => [[c]]

/-- Prometheus value kinds used by the catalog. -/
inductive ValueType where
  | counter
  | gauge
deriving DecidableEq, Repr

/-- One catalog entry: public metric name, value kind, label names and the
recognizing pattern.  The description argument of newUnboundMetric is inert
documentation and is elided. -/
structure UnboundMetric where
  name : String
  valueType : ValueType
  labelNames : List String
  pattern : List Tok
deriving DecidableEq, Repr

/-- Model of the newUnboundMetric constructor (the prometheus.Desc is
reduced to the name and label names it carries). -/
def newUnboundMetric (name : String) (valueType : ValueType)
    (labelNames : List String) (pattern : List Tok) : UnboundMetric :=
  ⟨name, valueType, labelNames, pattern⟩

/-- The fixed ordered metric catalog, transcribed entry by entry from the
unboundMetrics table of the source, in source order.  In each pattern the
regexp escapes are resolved into literal runs and the capture groups into
CapCls classes; the forms back-d-plus and bracketed 0-9-plus both denote
CapCls.digitPlus. -/
def unboundMetrics : List UnboundMetric :=
  [ newUnboundMetric "answer_rcodes_total" ValueType.counter ["rcode"]
      [Tok.lit ("num.answer.rcode.".data), Tok.grp CapCls.wordPlus],
    newUnboundMetric "answers_bogus" ValueType.counter []
      [Tok.lit ("num.answer.bogus".data)],
    newUnboundMetric "answers_secure_total" ValueType.counter []
      [Tok.lit ("num.answer.secure".data)],
    newUnboundMetric "cache_hits_total" ValueType.counter ["thread"]
      [Tok.lit ("thread".data), Tok.grp CapCls.digitPlus, Tok.lit (".num.cachehits".data)],
    newUnboundMetric "cache_misses_total" ValueType.counter ["thread"]
      [Tok.lit ("thread".data), Tok.grp CapCls.digitPlus, Tok.lit (".num.cachemiss".data)],
    newUnboundMetric "memory_caches_bytes" ValueType.gauge ["cache"]
      [Tok.lit ("mem.cache.".data), Tok.grp CapCls.wordPlus],
    newUnboundMetric "memory_modules_bytes" ValueType.gauge ["module"]
      [Tok.lit ("mem.mod.".data), Tok.grp CapCls.wordPlus],
    newUnboundMetric "memory_sbrk_bytes" ValueType.gauge []
      [Tok.lit ("mem.total.sbrk".data)],
    newUnboundMetric "prefetches_total" ValueType.counter ["thread"]
      [Tok.lit ("thread".data), Tok.grp CapCls.digitPlus, Tok.lit (".num.prefetch".data)],
    newUnboundMetric "queries_total" ValueType.counter ["thread"]
      [Tok.lit ("thread".data), Tok.grp CapCls.digitPlus, Tok.lit (".num.queries".data)],
    newUnboundMetric "query_classes_total" ValueType.counter ["class"]
      [Tok.lit ("num.query.class.".data), Tok.grp CapCls.wordPlus],
    newUnboundMetric "query_flags_total" ValueType.counter ["flag"]
      [Tok.lit ("num.query.flags.".data), Tok.grp CapCls.wordPlus],
    newUnboundMetric "query_ipv6_total" ValueType.counter []
      [Tok.lit ("num.query.ipv6".data)],
    newUnboundMetric "query_opcodes_total" ValueType.counter ["opcode"]
      [Tok.lit ("num.query.opcode.".data), Tok.grp CapCls.wordPlus],
    newUnboundMetric "query_edns_DO_total" ValueType.counter []
      [Tok.lit ("num.query.edns.DO".data)],
    newUnboundMetric "query_edns_present_total" ValueType.counter []
      [Tok.lit ("num.query.edns.present".data)],
    newUnboundMetric "query_tcp_total" ValueType.counter []
      [Tok.lit ("num.query.tcp".data)],
    newUnboundMetric "query_types_total" ValueType.counter ["type"]
      [Tok.lit ("num.query.type.".data), Tok.grp CapCls.wordPlus],
    newUnboundMetric "request_list_current_all" ValueType.gauge ["thread"]
      [Tok.lit ("thread".data), Tok.grp CapCls.digitPlus, Tok.lit (".requestlist.current.all".data)],
    newUnboundMetric "request_list_current_user" ValueType.gauge ["thread"]
      [Tok.lit ("thread".data), Tok.grp CapCls.digitPlus, Tok.lit (".requestlist.current.user".data)],
    newUnboundMetric "request_list_exceeded_total" ValueType.counter ["thread"]
      [Tok.lit ("thread".data), Tok.grp CapCls.digitPlus, Tok.lit (".requestlist.exceeded".data)],
    newUnboundMetric "request_list_overwritten_total" ValueType.counter ["thread"]
      [Tok.lit ("thread".data), Tok.grp CapCls.digitPlus, Tok.lit (".requestlist.overwritten".data)],
    newUnboundMetric "recursive_replies_total" ValueType.counter ["thread"]
      [Tok.lit ("thread".data), Tok.grp CapCls.digitPlus, Tok.lit (".num.recursivereplies".data)],
    newUnboundMetric "rrset_bogus_total" ValueType.counter []
      [Tok.lit ("num.rrset.bogus".data)],
    newUnboundMetric "time_elapsed_seconds" ValueType.counter []
      [Tok.lit ("time.elapsed".data)],
    newUnboundMetric "time_now_seconds" ValueType.gauge []
      [Tok.lit ("time.now".data)],
    newUnboundMetric "time_up_seconds_total" ValueType.counter []
      [Tok.lit ("time.up".data)],
    newUnboundMetric "unwanted_queries_total" ValueType.counter []
      [Tok.lit ("unwanted.queries".data)],
    newUnboundMetric "unwanted_replies_total" ValueType.counter []
      [Tok.lit ("unwanted.replies".data)] ]

/-- The fixed histogram bucket pattern of CollectFromReader: the literal
histogram-dot, a decimal bound group, the literal dot-to-dot, and a second
decimal bound group. -/
def histogramTokens : List Tok :=
  [Tok.lit ("histogram.".data), Tok.grp CapCls.decim, Tok.lit (".to.".data), Tok.grp CapCls.decim]

/-- Match of a key against the histogram bucket pattern, returning the two
captured bounds. -/
def histMatch (key : List Char) : Option (List Char × List Char) :=
  match matchToks histogramTokens key with
  | some [b, e] => some (b, e)
  | _ => none

/-- First catalog entry whose pattern matches the key, with its captures:
the for-loop over unboundMetrics with break after the first match. -/
def resolveCatalog (key : List Char) : Option (UnboundMetric × List (List Char)) :=
  unboundMetrics.findSome? fun m => (matchToks m.pattern key).map fun caps => (m, caps)

/-- One emitted ordinary metric data point, as constructed by
MustNewConstMetric from a catalog entry. -/
structure Sample where
  name : String
  valueType : ValueType
  value : ℚ
  labelValues : List String
deriving DecidableEq, Repr

/-- One metric sent on the collector channel: an ordinary Sample, the one
histogram (MustNewConstHistogram), or the reachability gauge. -/
inductive Metric where
  | sample (s : Sample)
  | histogram (count : Nat) (sum : ℚ) (buckets : List (ℚ × Nat))
  | up (value : ℚ)
deriving DecidableEq, Repr

/-- Errors CollectFromReader returns: the key-value format error of the
source (carrying the offending line verbatim), and the strconv.NumError
values returned by ParseFloat and ParseUint, which carry the function name
and the offending numeral but not the key. -/
inductive CollectError where
  | badLine (line : String)
  | parseFloatError (value : String)
  | parseUintError (value : String)
deriving DecidableEq, Repr

/-- The histogram accumulator state of one scrape: histogramCount (uint64),
histogramSum (float64) and the histogramBuckets map. -/
structure HState where
  count : Nat
  sum : ℚ
  buckets : List (ℚ × Nat)
deriving DecidableEq, Repr

deriving instance DecidableEq for Except

/-- Fresh accumulator state at the start of CollectFromReader. -/
def initState : HState := ⟨0, 0, []⟩

/-- Map insertion with overwrite on an equal key: the Go map assignment. -/
def insertOverwrite : List (ℚ × Nat) → ℚ → Nat → List (ℚ × Nat)
  | [], k, v => [(k, v)]
  | p :: rest, k, v => if p.1 = k then (p.1, v) :: rest else p :: insertOverwrite rest k v

/-- Map lookup. -/
def lookupQ : List (ℚ × Nat) → ℚ → Option Nat
  | [], _ => none
  | p :: rest, k => if p.1 = k then some p.2 else lookupQ rest k

/-- The histogram part of the loop body: if the key matches the histogram
pattern, parse the count (returning the ParseUint error on failure), store
it under the upper bound with overwrite, add it to the running count with
uint64 wrap-around, and add width times count to the running sum.  The
discarded ParseFloat results on the bounds are modelled by getD 0, exactly
as the blank-identifier assignments leave begin and end zero-initialized
only when ParseFloat fails. -/
def histStep (st : HState) (key val : List Char) : Except CollectError HState :=
  match histMatch key with
  | some (bs, es) =>
    match parseUint64 val with
    | some v =>
      let b := (parseQ bs).getD 0
      let e := (parseQ es).getD 0
      Except.ok ⟨(st.count + v) % 2 ^ 64, st.sum + (e - b) * (v : ℚ), insertOverwrite st.buckets e v⟩
    | none => Except.error (CollectError.parseUintError (String.mk val))
  | none => Except.ok st

/-- One iteration of the scan loop of CollectFromReader on one line:
split on =, fail unless exactly two fields result, emit the sample of the
first matching catalog entry (failing on an unparsable value), then run the
histogram step.  The first component is the list of metrics sent on the
channel by this iteration, also when the second component is an error, since
the source sends before it can fail. -/
def processLine (st : HState) (line : String) : List Metric × Except CollectError HState :=
  match splitEq line.data with
  | [key, val] =>
    match resolveCatalog key with
    | some (m, caps) =>
      match parseQ val with
      | some v =>
        ([Metric.sample ⟨m.name, m.valueType, v, caps.map fun c => String.mk c⟩],
          histStep st key val)
      | none => ([], Except.error (CollectError.parseFloatError (String.mk val)))
    | none => ([], histStep st key val)
  | _ => ([], Except.error (CollectError.badLine line))

/-- The scan loop over all lines: metrics sent on the channel in order, and
either the final accumulator state or the first error, at which the loop
returns immediately. -/
def runLines (st : HState) : List String → List Metric × Except CollectError HState
  | [] => ([], Except.ok st)
  | l :: ls =>
    match processLine st l with
    | (ms, Except.error e) => (ms, Except.error e)
    | (ms, Except.ok st2) =>
      let rest := runLines st2 ls
      (ms ++ rest.1, rest.2)

/-- Ordering of buckets by upper bound, used for the sort.Float64s pass over
the map keys. -/
def bucketLE (a b : ℚ × Nat) : Prop := a.1 ≤ b.1

instance : DecidableRel bucketLE := fun a b => inferInstanceAs (Decidable (a.1 ≤ b.1))

instance : IsTotal (ℚ × Nat) bucketLE := ⟨fun a b => le_total a.1 b.1⟩

instance : IsTrans (ℚ × Nat) bucketLE := ⟨fun _ _ _ h1 h2 => le_trans h1 h2⟩

/-- The in-place cumulative pass of the source: walk the buckets in
ascending key order, replacing each raw count by raw count plus the running
prefix (uint64 wrap-around), and carrying the new value as the prefix. -/
def cumulate (prev : Nat) : List (ℚ × Nat) → List (ℚ × Nat)
  | [] => []
  | p :: rest =>
    (p.1, (p.2 + prev) % 2 ^ 64) :: cumulate ((p.2 + prev) % 2 ^ 64) rest

/-- End-of-stream conversion of the raw bucket map into cumulative form:
sort the keys ascending (the pairs, by key) and run the cumulative pass. -/
def finalizeBuckets (bs : List (ℚ × Nat)) : List (ℚ × Nat) :=
  cumulate 0 (List.insertionSort bucketLE bs)

/-- Model of CollectFromReader on the list of lines of the stream: the
metrics sent on the channel in order, and the returned error if any.  On
success the one histogram metric is sent after the loop; on error the
function returns without sending it. -/
def collectFromReader (lines : List String) : List Metric × Option CollectError :=
  match runLines initState lines with
  | (ms, Except.error e) => (ms, some e)
  | (ms, Except.ok st) =>
    (ms ++ [Metric.histogram st.count st.sum (finalizeBuckets st.buckets)], none)

/-- Model of UnboundExporter.Collect over a stream already read from the
socket: run CollectFromReader, then send the reachability gauge valued 1 on
success and 0 on error. -/
def collect (lines : List String) : List Metric :=
  match collectFromReader lines with
  | (ms, none) => ms ++ [Metric.up 1]
  | (ms, some _) => ms ++ [Metric.up 0]

/-- Recognized-bucket view of one parsed (key, value) pair: the parsed lower
bound, upper bound and count if the histogram accumulator acts on it, none
otherwise (also when it rejects the count with an error). -/
def lineBucketKV (key val : List Char) : Option (ℚ × ℚ × Nat) :=
  match histMatch key, parseUint64 val with
  | some (bs, es), some v => some ((parseQ bs).getD 0, (parseQ es).getD 0, v)
  | _, _ => none

/-- Recognized-bucket view of one line: the parsed lower bound, upper bound
and count of a line that the histogram accumulator acts on, none for every
other line (including lines it rejects with an error). -/
def lineBucketFull (line : String) : Option (ℚ × ℚ × Nat) :=
  match splitEq line.data with
  | [key, val] => lineBucketKV key val
  | _ => none

/-- The (upper bound, count) pairs of the recognized histogram bucket lines
of a stream, in stream order. -/
def recognizedBuckets (lines : List String) : List (ℚ × Nat) :=
  (lines.filterMap lineBucketFull).map fun t => (t.2.1, t.2.2)

/-- Effect of one recognized bucket (or of no bucket) on the accumulator
state. -/
def histApply (st : HState) : Option (ℚ × ℚ × Nat) → HState
  | none => st
  | some (b, e, v) =>
    ⟨(st.count + v) % 2 ^ 64, st.sum + (e - b) * (v : ℚ), insertOverwrite st.buckets e v⟩

example : parseQ ("0.000001".data) = some (1 / 1000000) := by decide!
example : parseUint64 ("42".data) = some 42 := by decide!
example : splitEq ("a=b".data) = ["a".data, "b".data] := by decide!
example : (histMatch ("histogram.0.000000.to.0.000001".data)).isSome = true := by decide!
example :
    resolveCatalog ("num.query.tcp".data) =
      some (newUnboundMetric "query_tcp_total" ValueType.counter []
        [Tok.lit ("num.query.tcp".data)], []) := by decide!

/-! Characterization lemmas for the scan loop. -/

/-- When the histogram step succeeds, the new state is the effect of the
recognized bucket of the (key, value) pair, if any. -/
theorem histStep_ok (st st2 : HState) (key val : List Char)
    (h : histStep st key val = Except.ok st2) :
    st2 = histApply st (lineBucketKV key val) := by
  unfold histStep at h
  unfold lineBucketKV
  split at h
  next bs es heq =>
    split at h
    next v hv =>
      rw [heq, hv]
      cases h
      rfl
    next hv => exact absurd h (by simp)
  next heq =>
    rw [heq]
    cases h
    rfl

/-- When processing one line succeeds, the new state is the effect of the
recognized bucket of that line, if any. -/
theorem processLine_ok (st st2 : HState) (line : String) (ms : List Metric)
    (h : processLine st line = (ms, Except.ok st2)) :
    st2 = histApply st (lineBucketFull line) := by
  unfold processLine at h
  unfold lineBucketFull
  split at h
  next key val heq =>
    split at h
    next m caps hres =>
      split at h
      next v hv =>
        have h2 : histStep st key val = Except.ok st2 := congrArg Prod.snd h
        exact histStep_ok st st2 key val h2
      next hv => exact absurd (congrArg Prod.snd h) (by simp)
    next hres =>
      have h2 : histStep st key val = Except.ok st2 := congrArg Prod.snd h
      exact histStep_ok st st2 key val h2
  next hne => exact absurd (congrArg Prod.snd h) (by simp)

/-- Each loop iteration sends at most one metric, and when it sends one it
is an ordinary Sample. -/
theorem processLine_sampleOnly (st : HState) (line : String) :
    (processLine st line).1 = [] ∨ ∃ smp, (processLine st line).1 = [Metric.sample smp] := by
  unfold processLine
  split
  next key val heq =>
    split
    next m caps hres =>
      split
      next v hv => exact Or.inr ⟨_, rfl⟩
      next hv => exact Or.inl rfl
    next hres => exact Or.inl rfl
  next hne => exact Or.inl rfl

/-- Unfolding equation of the scan loop on the empty stream. -/
theorem runLines_nil (st : HState) : runLines st [] = ([], Except.ok st) := rfl

/-- Unfolding equation of the scan loop when the first line fails. -/
theorem runLines_cons_error (st : HState) (l : String) (ls : List String)
    (ms : List Metric) (e : CollectError) (hp : processLine st l = (ms, Except.error e)) :
    runLines st (l :: ls) = (ms, Except.error e) := by
  simp only [runLines, hp]

/-- Unfolding equation of the scan loop when the first line succeeds. -/
theorem runLines_cons_ok (st : HState) (l : String) (ls : List String)
    (ms : List Metric) (st2 : HState) (hp : processLine st l = (ms, Except.ok st2)) :
    runLines st (l :: ls) = (ms ++ (runLines st2 ls).1, (runLines st2 ls).2) := by
  simp only [runLines, hp]

/-- A successful run of the scan loop leaves the accumulator in the fold of
the per-line bucket effects over the stream. -/
theorem runLines_ok_state (lines : List String) :
    ∀ (st st2 : HState) (ms : List Metric),
      runLines st lines = (ms, Except.ok st2) →
      st2 = lines.foldl (fun s l => histApply s (lineBucketFull l)) st := by
  induction lines with
  | nil =>
    intro st st2 ms h
    rw [runLines_nil] at h
    cases h
    rfl
  | cons l ls ih =>
    intro st st2 ms h
    cases hp : processLine st l with
    | mk ms1 r =>
      cases r with
      | error e =>
        rw [runLines_cons_error st l ls ms1 e hp] at h
        exact absurd (congrArg Prod.snd h) (by simp)
      | ok st1 =>
        rw [runLines_cons_ok st l ls ms1 st1 hp] at h
        have h2 : (runLines st1 ls).2 = Except.ok st2 := congrArg Prod.snd h
        have hst1 : st1 = histApply st (lineBucketFull l) := processLine_ok st st1 l ms1 hp
        rw [List.foldl_cons, ← hst1]
        exact ih st1 st2 (runLines st1 ls).1 (by rw [← h2])

/-- The scan loop over a concatenation runs the first part and, on success,
continues over the second from the resulting state; an error in the first
part short-circuits. -/
theorem runLines_append (l1 l2 : List String) :
    ∀ st : HState,
      runLines st (l1 ++ l2) =
        match runLines st l1 with
        | (ms, Except.error e) => (ms, Except.error e)
        | (ms, Except.ok st1) => (ms ++ (runLines st1 l2).1, (runLines st1 l2).2) := by
  induction l1 with
  | nil =>
    intro st
    simp [runLines_nil]
  | cons l ls ih =>
    intro st
    cases hp : processLine st l with
    | mk ms1 r =>
      cases r with
      | error e =>
        rw [List.cons_append, runLines_cons_error st l (ls ++ l2) ms1 e hp,
          runLines_cons_error st l ls ms1 e hp]
      | ok st1 =>
        rw [List.cons_append, runLines_cons_ok st l (ls ++ l2) ms1 st1 hp,
          runLines_cons_ok st l ls ms1 st1 hp, ih st1]
        cases hr : runLines st1 ls with
        | mk ms2 r2 =>
          cases r2 with
          | error e => simp
          | ok st3 => simp

/-- Every metric the scan loop sends is an ordinary Sample: the histogram
and the reachability gauge are sent outside the loop. -/
theorem runLines_samples (lines : List String) :
    ∀ st : HState, ∀ m ∈ (runLines st lines).1, ∃ smp, m = Metric.sample smp := by
  induction lines with
  | nil =>
    intro st m hm
    rw [runLines_nil] at hm
    exact absurd hm (by simp)
  | cons l ls ih =>
    intro st m hm
    cases hp : processLine st l with
    | mk ms1 r =>
      have hone := processLine_sampleOnly st l
      rw [hp] at hone
      simp only at hone
      have hin : m ∈ ms1 → ∃ smp, m = Metric.sample smp := by
        intro hm1
        rcases hone with h0 | ⟨smp, h1⟩
        · rw [h0] at hm1; exact absurd hm1 (by simp)
        · rw [h1] at hm1; simp at hm1; exact ⟨smp, hm1⟩
      cases r with
      | error e =>
        rw [runLines_cons_error st l ls ms1 e hp] at hm
        exact hin hm
      | ok st1 =>
        rw [runLines_cons_ok st l ls ms1 st1 hp] at hm
        rcases List.mem_append.mp hm with hm1 | hm2
        · exact hin hm1
        · exact ih st1 m hm2

/-- The fold of the per-line bucket effects ignores unrecognized lines and
acts once for each recognized one. -/
theorem foldl_histApply_filterMap (lines : List String) :
    ∀ st : HState,
      lines.foldl (fun s l => histApply s (lineBucketFull l)) st =
        (lines.filterMap lineBucketFull).foldl (fun s t => histApply s (some t)) st := by
  induction lines with
  | nil => intro st; rfl
  | cons l ls ih =>
    intro st
    cases hb : lineBucketFull l with
    | none =>
      rw [List.foldl_cons, hb, List.filterMap_cons_none hb]
      exact ih st
    | some t =>
      rw [List.foldl_cons, hb, List.filterMap_cons_some hb, List.foldl_cons]
      exact ih (histApply st (some t))

/-- Running total count of the accumulator after a fold of bucket effects:
the start count plus all recognized counts, modulo 2 ^ 64. -/
theorem foldl_histApply_count (ts : List (ℚ × ℚ × Nat)) :
    ∀ st : HState, st.count < 2 ^ 64 →
      (ts.foldl (fun s t => histApply s (some t)) st).count
        = (st.count + (ts.map fun t => t.2.2).sum) % 2 ^ 64 := by
  induction ts with
  | nil =>
    intro st hst
    simp only [List.foldl_nil, List.map_nil, List.sum_nil, Nat.add_zero]
    exact (Nat.mod_eq_of_lt hst).symm
  | cons t rest ih =>
    intro st hst
    obtain ⟨b, e, v⟩ := t
    rw [List.foldl_cons]
    have hlt : (st.count + v) % 2 ^ 64 < 2 ^ 64 := Nat.mod_lt _ (by positivity)
    have := ih ⟨(st.count + v) % 2 ^ 64, st.sum + (e - b) * (v : ℚ),
      insertOverwrite st.buckets e v⟩ hlt
    rw [show (histApply st (some (b, e, v))) = ⟨(st.count + v) % 2 ^ 64,
      st.sum + (e - b) * (v : ℚ), insertOverwrite st.buckets e v⟩ from rfl]
    rw [this]
    simp [Nat.mod_add_mod, Nat.add_assoc]

/-- Bucket map of the accumulator after a fold of bucket effects: the fold
of overwriting insertions of the recognized (upper bound, count) pairs. -/
theorem foldl_histApply_buckets (ts : List (ℚ × ℚ × Nat)) :
    ∀ st : HState,
      (ts.foldl (fun s t => histApply s (some t)) st).buckets
        = (ts.map fun t => (t.2.1, t.2.2)).foldl
            (fun bs p => insertOverwrite bs p.1 p.2) st.buckets := by
  induction ts with
  | nil => intro st; rfl
  | cons t rest ih =>
    intro st
    obtain ⟨b, e, v⟩ := t
    rw [List.foldl_cons, List.map_cons, List.foldl_cons]
    exact ih (histApply st (some (b, e, v)))

/-- Inserting a fresh key appends the pair at the end of the map. -/
theorem insertOverwrite_not_mem (bs : List (ℚ × Nat)) (k : ℚ) (v : Nat)
    (h : k ∉ bs.map Prod.fst) : insertOverwrite bs k v = bs ++ [(k, v)] := by
  induction bs with
  | nil => rfl
  | cons p rest ih =>
    simp only [List.map_cons, List.mem_cons, not_or] at h
    unfold insertOverwrite
    rw [if_neg (fun he => h.1 he.symm)]
    rw [ih h.2, List.cons_append]

/-- Folding overwriting insertions of pairwise-distinct fresh keys into a
map appends them in order. -/
theorem foldl_insertOverwrite_nodup (ps : List (ℚ × Nat)) :
    ∀ acc : List (ℚ × Nat),
      (ps.map Prod.fst).Nodup →
      (∀ k ∈ ps.map Prod.fst, k ∉ acc.map Prod.fst) →
      ps.foldl (fun bs p => insertOverwrite bs p.1 p.2) acc = acc ++ ps := by
  induction ps with
  | nil => intro acc _ _; simp
  | cons p rest ih =>
    intro acc hnd hdisj
    rw [List.foldl_cons, insertOverwrite_not_mem acc p.1 p.2 (hdisj p.1 (by simp))]
    rw [List.map_cons, List.nodup_cons] at hnd
    have hdisj2 : ∀ k ∈ rest.map Prod.fst, k ∉ (acc ++ [(p.1, p.2)]).map Prod.fst := by
      intro k hk
      rw [List.map_append, List.mem_append]
      rintro (ha | hb)
      · exact hdisj k (by simp [hk]) ha
      · simp at hb
        rw [hb] at hk
        exact hnd.1 hk
    rw [ih (acc ++ [(p.1, p.2)]) hnd.2 hdisj2, List.append_assoc]
    simp

/-- Looking up the key just inserted returns the inserted value. -/
theorem lookupQ_insertOverwrite_self (bs : List (ℚ × Nat)) (k : ℚ) (v : Nat) :
    lookupQ (insertOverwrite bs k v) k = some v := by
  induction bs with
  | nil => simp [insertOverwrite, lookupQ]
  | cons p rest ih =>
    unfold insertOverwrite
    by_cases h : p.1 = k
    · rw [if_pos h]
      unfold lookupQ
      rw [if_pos h]
    · rw [if_neg h]
      unfold lookupQ
      rw [if_neg h]
      exact ih

/-- Looking up a different key is unaffected by an insertion. -/
theorem lookupQ_insertOverwrite_ne (bs : List (ℚ × Nat)) (k k2 : ℚ) (v : Nat)
    (h : k2 ≠ k) : lookupQ (insertOverwrite bs k v) k2 = lookupQ bs k2 := by
  induction bs with
  | nil =>
    unfold insertOverwrite lookupQ
    rw [if_neg (fun he => h he.symm)]
    rfl
  | cons p rest ih =>
    unfold insertOverwrite
    by_cases hp : p.1 = k
    · rw [if_pos hp]
      unfold lookupQ
      rw [if_neg (by rw [hp]; exact fun he => h he.symm), if_neg (by rw [hp]; exact fun he => h he.symm)]
    · rw [if_neg hp]
      unfold lookupQ
      by_cases hp2 : p.1 = k2
      · rw [if_pos hp2, if_pos hp2]
      · rw [if_neg hp2, if_neg hp2]
        exact ih

/-- Value carried by the last pair with a given key, none if the key never
occurs. -/
def lastVal : List (ℚ × Nat) → ℚ → Option Nat
  | [], _ => none
  | p :: rest, k =>
    match lastVal rest k with
    | some v => some v
    | none => if p.1 = k then some p.2 else none

/-- Looking up a key after folding overwriting insertions returns the value
of the last inserted pair with that key, the original binding otherwise. -/
theorem lookupQ_foldl_insertOverwrite (ps : List (ℚ × Nat)) :
    ∀ (acc : List (ℚ × Nat)) (k : ℚ),
      lookupQ (ps.foldl (fun bs p => insertOverwrite bs p.1 p.2) acc) k =
        match lastVal ps k with
        | some v => some v
        | none => lookupQ acc k := by
  induction ps with
  | nil => intro acc k; rfl
  | cons p rest ih =>
    intro acc k
    rw [List.foldl_cons, ih]
    cases hl : lastVal rest k with
    | some v =>
      have h2 : lastVal (p :: rest) k = some v := by unfold lastVal; rw [hl]
      simp only [hl, h2]
    | none =>
      have h2 : lastVal (p :: rest) k = if p.1 = k then some p.2 else none := by
        unfold lastVal; rw [hl]
      simp only [hl, h2]
      by_cases h : p.1 = k
      · subst h
        rw [lookupQ_insertOverwrite_self]
        simp
      · rw [lookupQ_insertOverwrite_ne acc p.1 k p.2 (fun he => h he.symm)]
        simp [h]

/-- The cumulative pass keeps the keys. -/
theorem cumulate_keys (bs : List (ℚ × Nat)) :
    ∀ prev : Nat, (cumulate prev bs).map Prod.fst = bs.map Prod.fst := by
  induction bs with
  | nil => intro prev; rfl
  | cons p rest ih =>
    intro prev
    rw [show cumulate prev (p :: rest)
        = (p.1, (p.2 + prev) % 2 ^ 64) :: cumulate ((p.2 + prev) % 2 ^ 64) rest from rfl]
    rw [List.map_cons, List.map_cons, ih]

/-- When no wrap-around occurs, every cumulated value is at least the
incoming prefix. -/
theorem cumulate_ge (bs : List (ℚ × Nat)) :
    ∀ prev : Nat, prev + (bs.map Prod.snd).sum < 2 ^ 64 →
      ∀ q ∈ cumulate prev bs, prev ≤ q.2 := by
  induction bs with
  | nil =>
    intro prev _ q hq
    exact absurd hq (by simp [cumulate])
  | cons p rest ih =>
    intro prev hb q hq
    rw [List.map_cons, List.sum_cons] at hb
    have hlt : p.2 + prev < 2 ^ 64 := by omega
    rw [show cumulate prev (p :: rest)
        = (p.1, (p.2 + prev) % 2 ^ 64) :: cumulate ((p.2 + prev) % 2 ^ 64) rest from rfl,
      Nat.mod_eq_of_lt hlt] at hq
    rcases List.mem_cons.mp hq with h | h
    · rw [h]
      simp only
      omega
    · have := ih (p.2 + prev) (by omega) q h
      omega

/-- When no wrap-around occurs, the cumulated values are monotone along the
list. -/
theorem cumulate_pairwise (bs : List (ℚ × Nat)) :
    ∀ prev : Nat, prev + (bs.map Prod.snd).sum < 2 ^ 64 →
      (cumulate prev bs).Pairwise (fun a b => a.2 ≤ b.2) := by
  induction bs with
  | nil => intro prev _; simp [cumulate]
  | cons p rest ih =>
    intro prev hb
    rw [List.map_cons, List.sum_cons] at hb
    have hlt : p.2 + prev < 2 ^ 64 := by omega
    rw [show cumulate prev (p :: rest)
        = (p.1, (p.2 + prev) % 2 ^ 64) :: cumulate ((p.2 + prev) % 2 ^ 64) rest from rfl,
      Nat.mod_eq_of_lt hlt]
    refine List.Pairwise.cons ?_ (ih (p.2 + prev) (by omega))
    intro q hq
    exact cumulate_ge rest (p.2 + prev) (by omega) q hq

/-- When no wrap-around occurs, the last cumulated value is the incoming
prefix plus the sum of all raw values. -/
theorem cumulate_getLast (bs : List (ℚ × Nat)) :
    ∀ prev : Nat, prev + (bs.map Prod.snd).sum < 2 ^ 64 →
      ∀ q, (cumulate prev bs).getLast? = some q → q.2 = prev + (bs.map Prod.snd).sum := by
  induction bs with
  | nil =>
    intro prev _ q hq
    exact absurd hq (by simp [cumulate])
  | cons p rest ih =>
    intro prev hb q hq
    rw [List.map_cons, List.sum_cons] at hb ⊢
    have hlt : p.2 + prev < 2 ^ 64 := by omega
    rw [show cumulate prev (p :: rest)
        = (p.1, (p.2 + prev) % 2 ^ 64) :: cumulate ((p.2 + prev) % 2 ^ 64) rest from rfl,
      Nat.mod_eq_of_lt hlt] at hq
    cases hrest : cumulate (p.2 + prev) rest with
    | nil =>
      rw [hrest] at hq
      simp only [List.getLast?_singleton, Option.some.injEq] at hq
      have hlen : rest.length = 0 := by
        have := congrArg List.length (cumulate_keys rest (p.2 + prev))
        simp only [List.length_map] at this
        rw [hrest] at this
        simpa using this.symm
      rw [List.eq_nil_of_length_eq_zero hlen]
      rw [← hq]
      simp only [List.map_nil, List.sum_nil]
      omega
    | cons q2 qs =>
      rw [hrest, List.getLast?_cons_cons] at hq
      have := ih (p.2 + prev) (by omega) q (by rw [hrest]; exact hq)
      omega

/-- The cumulative pass preserves any pairwise relation on the keys. -/
theorem cumulate_pairwise_keys (bs : List (ℚ × Nat)) (prev : Nat)
    (h : bs.Pairwise fun a b => a.1 < b.1) :
    (cumulate prev bs).Pairwise fun a b => a.1 < b.1 := by
  have hk := cumulate_keys bs prev
  have h1 : (bs.map Prod.fst).Pairwise (· < ·) := List.pairwise_map.mpr h
  rw [← hk] at h1
  exact List.pairwise_map.mp h1

/-- C1: on a successful scrape whose recognized histogram bucket lines have
pairwise distinct upper bounds and whose total observation count fits in
uint64 (a well-formed feed), the emitted HistogramSample has cumulative
bucket counts that are monotone non-decreasing as the upper bound
increases, and the bucket with the largest upper bound carries exactly the
total observation count. -/
theorem c1_cumulative_monotone_and_total (lines : List String) (ms : List Metric)
    (hrun : collectFromReader lines = (ms, none))
    (hnodup : ((recognizedBuckets lines).map Prod.fst).Nodup)
    (hsum : ((recognizedBuckets lines).map Prod.snd).sum < 2 ^ 64) :
    ∃ count sum bs,
      ms.getLast? = some (Metric.histogram count sum bs) ∧
      bs.Pairwise (fun a b => a.1 < b.1 ∧ a.2 ≤ b.2) ∧
      (∀ q, bs.getLast? = some q → q.2 = count) ∧
      count = ((recognizedBuckets lines).map Prod.snd).sum := by
  unfold collectFromReader at hrun
  split at hrun
  next ms0 e heq => exact absurd (congrArg Prod.snd hrun) (by simp)
  next ms0 st heq =>
    have hms : ms = ms0 ++ [Metric.histogram st.count st.sum (finalizeBuckets st.buckets)] :=
      (congrArg Prod.fst hrun).symm
    have hstate : st = (lines.filterMap lineBucketFull).foldl
        (fun s t => histApply s (some t)) initState := by
      rw [runLines_ok_state lines initState st ms0 heq]
      exact foldl_histApply_filterMap lines initState
    have hsnd : (recognizedBuckets lines).map Prod.snd
        = (lines.filterMap lineBucketFull).map fun t => t.2.2 := by
      unfold recognizedBuckets
      rw [List.map_map]
      rfl
    have hcount : st.count = ((recognizedBuckets lines).map Prod.snd).sum := by
      rw [hstate, foldl_histApply_count (lines.filterMap lineBucketFull) initState (by decide)]
      rw [show initState.count = 0 from rfl, Nat.zero_add, ← hsnd]
      exact Nat.mod_eq_of_lt hsum
    have hbuckets : st.buckets = recognizedBuckets lines := by
      rw [hstate, foldl_histApply_buckets (lines.filterMap lineBucketFull) initState]
      rw [show initState.buckets = ([] : List (ℚ × Nat)) from rfl]
      have hfold := foldl_insertOverwrite_nodup (recognizedBuckets lines) []
        hnodup (by intro k _ hk; exact absurd hk (by simp))
      unfold recognizedBuckets at hfold ⊢
      rw [hfold, List.nil_append]
    refine ⟨st.count, st.sum, finalizeBuckets st.buckets, ?_, ?_, ?_, hcount⟩
    · rw [hms, List.getLast?_concat]
    · unfold finalizeBuckets
      rw [hbuckets]
      have hperm : List.Perm (List.insertionSort bucketLE (recognizedBuckets lines))
          (recognizedBuckets lines) := List.perm_insertionSort bucketLE _
      have hsorted : (List.insertionSort bucketLE (recognizedBuckets lines)).Pairwise
          fun a b => a.1 ≤ b.1 :=
        (List.sorted_insertionSort bucketLE (recognizedBuckets lines)).imp fun h => h
      have hnd2 : ((List.insertionSort bucketLE (recognizedBuckets lines)).map
          Prod.fst).Nodup := ((hperm.map Prod.fst).nodup_iff).mpr hnodup
      have hne : (List.insertionSort bucketLE (recognizedBuckets lines)).Pairwise
          fun a b => a.1 ≠ b.1 := List.pairwise_map.mp hnd2
      have hstrict : (List.insertionSort bucketLE (recognizedBuckets lines)).Pairwise
          fun a b => a.1 < b.1 :=
        (hsorted.and hne).imp fun h => lt_of_le_of_ne h.1 h.2
      have hsum2 : ((List.insertionSort bucketLE (recognizedBuckets lines)).map
          Prod.snd).sum = ((recognizedBuckets lines).map Prod.snd).sum :=
        (hperm.map Prod.snd).sum_eq
      have hbound : (0 : Nat) + ((List.insertionSort bucketLE
          (recognizedBuckets lines)).map Prod.snd).sum < 2 ^ 64 := by
        rw [Nat.zero_add, hsum2]
        exact hsum
      have hkeys := cumulate_pairwise_keys
        (List.insertionSort bucketLE (recognizedBuckets lines)) 0 hstrict
      have hvals := cumulate_pairwise
        (List.insertionSort bucketLE (recognizedBuckets lines)) 0 hbound
      exact hkeys.and hvals
    · intro q hq
      unfold finalizeBuckets at hq
      rw [hbuckets] at hq
      have hperm : List.Perm (List.insertionSort bucketLE (recognizedBuckets lines))
          (recognizedBuckets lines) := List.perm_insertionSort bucketLE _
      have hsum2 : ((List.insertionSort bucketLE (recognizedBuckets lines)).map
          Prod.snd).sum = ((recognizedBuckets lines).map Prod.snd).sum :=
        (hperm.map Prod.snd).sum_eq
      have hbound : (0 : Nat) + ((List.insertionSort bucketLE
          (recognizedBuckets lines)).map Prod.snd).sum < 2 ^ 64 := by
        rw [Nat.zero_add, hsum2]
        exact hsum
      have := cumulate_getLast (List.insertionSort bucketLE (recognizedBuckets lines))
        0 hbound q hq
      rw [this, Nat.zero_add, hsum2, hcount]

/-- Witness for C1 at the two-bucket-line stream of the spec. -/
theorem c1_cumulative_monotone_and_total_witness :
    collectFromReader ["histogram.0.000000.to.0.000001=2", "histogram.0.000001.to.0.000002=3"]
        = ([Metric.histogram 5 (1 / 200000) [(1 / 1000000, 2), (1 / 500000, 5)]], none)
    ∧ ((recognizedBuckets ["histogram.0.000000.to.0.000001=2",
          "histogram.0.000001.to.0.000002=3"]).map Prod.fst).Nodup
    ∧ ((recognizedBuckets ["histogram.0.000000.to.0.000001=2",
          "histogram.0.000001.to.0.000002=3"]).map Prod.snd).sum < 2 ^ 64
    ∧ ∃ count sum bs,
        ([Metric.histogram 5 (1 / 200000)
            [(1 / 1000000, 2), (1 / 500000, 5)]] : List Metric).getLast?
            = some (Metric.histogram count sum bs) ∧
        bs.Pairwise (fun a b => a.1 < b.1 ∧ a.2 ≤ b.2) ∧
        (∀ q, bs.getLast? = some q → q.2 = count) ∧
        count = ((recognizedBuckets ["histogram.0.000000.to.0.000001=2",
            "histogram.0.000001.to.0.000002=3"]).map Prod.snd).sum :=
  ⟨by decide!, by decide!, by decide!,
    c1_cumulative_monotone_and_total
      ["histogram.0.000000.to.0.000001=2", "histogram.0.000001.to.0.000002=3"]
      [Metric.histogram 5 (1 / 200000) [(1 / 1000000, 2), (1 / 500000, 5)]]
      (by decide!) (by decide!) (by decide!)⟩

/-- C2: on the stream of exactly the two histogram lines of the spec, the
scrape succeeds and emits one HistogramSample with cumulative buckets
0.000001 to 2 and 0.000002 to 5, total count 5, and the width-weighted
estimated sum, each recognized line contributing width times count. -/
theorem c2_two_bucket_lines_example :
    collectFromReader ["histogram.0.000000.to.0.000001=2", "histogram.0.000001.to.0.000002=3"]
      = ([Metric.histogram 5
            ((1 / 1000000 - 0) * 2 + (2 / 1000000 - 1 / 1000000) * 3)
            [(1 / 1000000, 2), (2 / 1000000, 5)]], none) := by decide!

/-- Scanning for the first hit skips a prefix on which the function
returns none. -/
theorem findSome?_append_none {α β : Type} (f : α → Option β) (l1 l2 : List α)
    (h : ∀ x ∈ l1, f x = none) :
    (l1 ++ l2).findSome? f = l2.findSome? f := by
  induction l1 with
  | nil => rfl
  | cons a l ih =>
    rw [List.cons_append, List.findSome?_cons, h a (List.mem_cons_self a l)]
    exact ih fun x hx => h x (List.mem_cons_of_mem a hx)

/-- The resolver returns the first catalog entry whose pattern matches,
with its captures. -/
theorem resolveCatalog_first (key : List Char) (pre post : List UnboundMetric)
    (m : UnboundMetric) (caps : List (List Char))
    (hcat : unboundMetrics = pre ++ m :: post)
    (hpre : ∀ m2 ∈ pre, matchToks m2.pattern key = none)
    (hm : matchToks m.pattern key = some caps) :
    resolveCatalog key = some (m, caps) := by
  unfold resolveCatalog
  rw [hcat, findSome?_append_none _ pre _ (fun m2 hm2 => by rw [hpre m2 hm2]; rfl),
    List.findSome?_cons, hm]
  rfl

/-- C3: for a parsed (key, value) pair whose value converts, if the catalog
splits as a prefix of non-matching definitions followed by a matching one,
the loop emits exactly one Sample, built from that first matching
definition with its captures as label values, and no later definition
contributes. -/
theorem c3_first_match_single_sample (st : HState) (line : String)
    (key val : List Char) (v : ℚ)
    (pre post : List UnboundMetric) (m : UnboundMetric) (caps : List (List Char))
    (hf : splitEq line.data = [key, val])
    (hv : parseQ val = some v)
    (hcat : unboundMetrics = pre ++ m :: post)
    (hpre : ∀ m2 ∈ pre, matchToks m2.pattern key = none)
    (hm : matchToks m.pattern key = some caps) :
    ((processLine st line).1
        = [Metric.sample ⟨m.name, m.valueType, v, caps.map fun c => String.mk c⟩])
    ∧ ∀ (st2 : HState) (line2 : String), (processLine st2 line2).1.length ≤ 1 := by
  refine ⟨?_, ?_⟩
  case refine_2 =>
    intro st2 line2
    rcases processLine_sampleOnly st2 line2 with h0 | ⟨smp, h0⟩ <;> simp [h0]
  have h1 : processLine st line
      = match resolveCatalog key with
        | some (m2, caps2) =>
          match parseQ val with
          | some v2 =>
            ([Metric.sample ⟨m2.name, m2.valueType, v2, caps2.map fun c => String.mk c⟩],
              histStep st key val)
          | none => ([], Except.error (CollectError.parseFloatError (String.mk val)))
        | none => ([], histStep st key val) := by
    unfold processLine
    rw [hf]
  rw [h1, resolveCatalog_first key pre post m caps hcat hpre hm, hv]

/-- Witness for C3 at the thread0 cache-hits line of the spec. -/
theorem c3_first_match_single_sample_witness :
    splitEq ("thread0.num.cachehits=7".data)
        = ["thread0.num.cachehits".data, "7".data]
    ∧ parseQ ("7".data) = some 7
    ∧ unboundMetrics = unboundMetrics.take 3
        ++ newUnboundMetric "cache_hits_total" ValueType.counter ["thread"]
             [Tok.lit ("thread".data), Tok.grp CapCls.digitPlus,
              Tok.lit (".num.cachehits".data)]
          :: unboundMetrics.drop 4
    ∧ (∀ m2 ∈ unboundMetrics.take 3,
        matchToks m2.pattern ("thread0.num.cachehits".data) = none)
    ∧ matchToks (newUnboundMetric "cache_hits_total" ValueType.counter ["thread"]
          [Tok.lit ("thread".data), Tok.grp CapCls.digitPlus,
           Tok.lit (".num.cachehits".data)]).pattern
        ("thread0.num.cachehits".data) = some ["0".data]
    ∧ ((processLine initState "thread0.num.cachehits=7").1
          = [Metric.sample ⟨"cache_hits_total", ValueType.counter, 7, ["0"]⟩]
        ∧ ∀ (st2 : HState) (line2 : String), (processLine st2 line2).1.length ≤ 1) :=
  ⟨by decide!, by decide!, by decide!, by decide!, by decide!,
    c3_first_match_single_sample initState "thread0.num.cachehits=7"
      ("thread0.num.cachehits".data) ("7".data) 7
      (unboundMetrics.take 3) (unboundMetrics.drop 4)
      (newUnboundMetric "cache_hits_total" ValueType.counter ["thread"]
        [Tok.lit ("thread".data), Tok.grp CapCls.digitPlus,
         Tok.lit (".num.cachehits".data)])
      ["0".data]
      (by decide!) (by decide!) (by decide!) (by decide!) (by decide!)⟩

/-- The histogram step never produces the key-value format error. -/
theorem histStep_ne_badLine (st : HState) (key val : List Char) (l : String) :
    histStep st key val ≠ Except.error (CollectError.badLine l) := by
  unfold histStep
  split
  · split
    · simp
    · simp
  · simp

/-- C4 counterexample: the line with an empty key and value 1 splits into
two fields, one of them empty, and the scrape succeeds without any error,
refuting that an empty key causes a FormatError. -/
theorem c4_counterexample_empty_key_accepted :
    collectFromReader ["=1"] = ([Metric.histogram 0 0 []], none)
    ∧ splitEq ("=1".data) = [[], "1".data] := by
  refine ⟨by decide!, by decide!⟩

/-- C4 amended: a line produces the FormatError quoting it verbatim exactly
when splitting it on the separator yields a number of fields different from
two (fields may be empty); such a line aborts the scrape at that point with
no further output. -/
theorem c4_badline_iff_not_two_fields (st : HState) (line : String) (ls : List String) :
    ((splitEq line.data).length ≠ 2 →
      runLines st (line :: ls) = ([], Except.error (CollectError.badLine line)))
    ∧ ((processLine st line).2 = Except.error (CollectError.badLine line)
        ↔ (splitEq line.data).length ≠ 2) := by
  have hshape : ∀ key val : List Char, splitEq line.data = [key, val] →
      (processLine st line).2 ≠ Except.error (CollectError.badLine line) := by
    intro key val hf
    have h1 : processLine st line
        = match resolveCatalog key with
          | some (m2, caps2) =>
            match parseQ val with
            | some v2 =>
              ([Metric.sample ⟨m2.name, m2.valueType, v2, caps2.map fun c => String.mk c⟩],
                histStep st key val)
            | none => ([], Except.error (CollectError.parseFloatError (String.mk val)))
          | none => ([], histStep st key val) := by
      unfold processLine
      rw [hf]
    rw [h1]
    split
    next m2 caps2 hres =>
      split
      next v2 hv => exact histStep_ne_badLine st key val line
      next hv => simp
    next hres => exact histStep_ne_badLine st key val line
  have hbad : (splitEq line.data).length ≠ 2 →
      processLine st line = ([], Except.error (CollectError.badLine line)) := by
    intro hlen
    unfold processLine
    split
    next key val hf => exact absurd (by rw [hf]; rfl) hlen
    next hne => rfl
  refine ⟨?_, ?_, ?_⟩
  · intro hlen
    exact runLines_cons_error st line ls [] (CollectError.badLine line) (hbad hlen)
  · intro herr
    by_contra hlen
    cases hsp : splitEq line.data with
    | nil => rw [hsp] at hlen; simp at hlen
    | cons a rest =>
      cases rest with
      | nil => rw [hsp] at hlen; simp at hlen
      | cons b rest2 =>
        cases rest2 with
        | nil => exact hshape a b hsp herr
        | cons c rest3 => rw [hsp] at hlen; simp at hlen
  · intro hlen
    rw [hbad hlen]

/-- C5 counterexample: with a valid line before a malformed one, the Sample
of the valid line is emitted on the channel before the error, alongside the
reachability gauge valued 0, refuting that no Samples from earlier valid
lines are emitted. -/
theorem c5_counterexample_partial_samples :
    collect ["num.query.tcp=5", "garbage"]
      = [Metric.sample ⟨"query_tcp_total", ValueType.counter, 5, []⟩, Metric.up 0] := by
  decide!

/-- C5 amended: when a line fails, the scrape aborts at it: the lines after
it contribute nothing, no HistogramSample is emitted, and the reachability
gauge valued 0 is sent last; the metrics already sent for earlier valid
lines (and by the failing iteration itself) remain on the channel.  A
successful scrape sends the gauge valued 1 after all resolved Samples. -/
theorem c5_abort_no_histogram_up_zero (pre : List String) (l : String)
    (post : List String) (ms : List Metric) (st1 : HState) (e : CollectError)
    (h1 : runLines initState pre = (ms, Except.ok st1))
    (h2 : (processLine st1 l).2 = Except.error e) :
    collect (pre ++ l :: post) = ms ++ (processLine st1 l).1 ++ [Metric.up 0]
    ∧ (∀ c s bs, Metric.histogram c s bs ∉ collect (pre ++ l :: post))
    ∧ ∀ lines2 : List String, (collectFromReader lines2).2 = none →
        collect lines2 = (collectFromReader lines2).1 ++ [Metric.up 1] := by
  have hpl : processLine st1 l = ((processLine st1 l).1, Except.error e) := by
    rw [← h2]
  have hrun : runLines initState (pre ++ l :: post)
      = (ms ++ (processLine st1 l).1, Except.error e) := by
    have happ := runLines_append pre (l :: post) initState
    rw [h1] at happ
    rw [happ]
    show (ms ++ (runLines st1 (l :: post)).1, (runLines st1 (l :: post)).2) = _
    rw [runLines_cons_error st1 l post (processLine st1 l).1 e hpl]
  have hcfr : collectFromReader (pre ++ l :: post)
      = (ms ++ (processLine st1 l).1, some e) := by
    unfold collectFromReader
    rw [hrun]
  have hcol : collect (pre ++ l :: post) = ms ++ (processLine st1 l).1 ++ [Metric.up 0] := by
    unfold collect
    rw [hcfr]
  refine ⟨hcol, ?_, ?_⟩
  · intro c s bs hmem
    rw [hcol] at hmem
    rcases List.mem_append.mp hmem with hm1 | hm2
    · have := runLines_samples (pre ++ l :: post) initState (Metric.histogram c s bs)
        (by rw [hrun]; exact hm1)
      exact absurd this (by simp)
    · exact absurd hm2 (by simp)
  · intro lines2 hok
    unfold collect
    cases hc : collectFromReader lines2 with
    | mk ms2 r2 =>
      cases r2 with
      | none => rfl
      | some e2 =>
        rw [hc] at hok
        exact absurd hok (by simp)

/-- Witness for C5 amended at a stream with one valid line, then a
malformed one, then a further valid line. -/
theorem c5_abort_no_histogram_up_zero_witness :
    runLines initState ["num.query.tcp=5"]
        = ([Metric.sample ⟨"query_tcp_total", ValueType.counter, 5, []⟩],
            Except.ok initState)
    ∧ (processLine initState "garbage").2
        = Except.error (CollectError.badLine "garbage")
    ∧ (collect (["num.query.tcp=5"] ++ "garbage" :: ["num.query.ipv6=1"])
        = [Metric.sample ⟨"query_tcp_total", ValueType.counter, 5, []⟩]
            ++ (processLine initState "garbage").1 ++ [Metric.up 0]
      ∧ (∀ c s bs, Metric.histogram c s bs
          ∉ collect (["num.query.tcp=5"] ++ "garbage" :: ["num.query.ipv6=1"]))
      ∧ ∀ lines2 : List String, (collectFromReader lines2).2 = none →
          collect lines2 = (collectFromReader lines2).1 ++ [Metric.up 1]) :=
  ⟨by decide!, by decide!,
    c5_abort_no_histogram_up_zero ["num.query.tcp=5"] "garbage" ["num.query.ipv6=1"]
      [Metric.sample ⟨"query_tcp_total", ValueType.counter, 5, []⟩] initState
      (CollectError.badLine "garbage") (by decide!) (by decide!)⟩

/-- Witness for C4 amended at the separator-free line of the spec. -/
theorem c4_badline_iff_not_two_fields_witness :
    (splitEq ("garbage".data)).length ≠ 2
    ∧ runLines initState ["garbage"] = ([], Except.error (CollectError.badLine "garbage")) :=
  ⟨by decide!, (c4_badline_iff_not_two_fields initState "garbage" []).1 (by decide!)⟩

/-- C6 counterexample: a bucket-like line with a non-numeric bound is
silently dropped and the scrape succeeds rather than failing with a
FormatError, and the error for an unparsable value is identical for two
different keys, so it does not name the key. -/
theorem c6_counterexample_bound_and_key :
    (collectFromReader ["histogram.x.to.0.1=5"]).2 = none
    ∧ (processLine initState "num.query.tcp=abc").2
        = (processLine initState "num.query.ipv6=abc").2
    ∧ (processLine initState "num.query.tcp=abc").2
        = Except.error (CollectError.parseFloatError "abc") := by
  refine ⟨by decide!, by decide!, by decide!⟩

/-- C6 amended: a line whose key matches a catalog entry but whose value
fails numeric conversion fails the scrape with the ParseFloat error naming
the raw value only, and a recognized histogram bucket line whose count
fails unsigned conversion fails it with the ParseUint error naming the raw
count only; a bucket-like key with non-numeric bounds does not match the
histogram pattern at all. -/
theorem c6_conversion_failures (st : HState) (line : String) (key val : List Char)
    (m : UnboundMetric) (caps : List (List Char))
    (hf : splitEq line.data = [key, val])
    (hres : resolveCatalog key = some (m, caps))
    (hv : parseQ val = none) :
    (processLine st line).2 = Except.error (CollectError.parseFloatError (String.mk val))
    ∧ ∀ (st2 : HState) (line2 : String) (key2 val2 b e : List Char),
        splitEq line2.data = [key2, val2] →
        resolveCatalog key2 = none →
        histMatch key2 = some (b, e) →
        parseUint64 val2 = none →
        (processLine st2 line2).2
          = Except.error (CollectError.parseUintError (String.mk val2)) := by
  constructor
  · have h1 : processLine st line
        = match resolveCatalog key with
          | some (m2, caps2) =>
            match parseQ val with
            | some v2 =>
              ([Metric.sample ⟨m2.name, m2.valueType, v2, caps2.map fun c => String.mk c⟩],
                histStep st key val)
            | none => ([], Except.error (CollectError.parseFloatError (String.mk val)))
          | none => ([], histStep st key val) := by
      unfold processLine
      rw [hf]
    rw [h1, hres, hv]
  · intro st2 line2 key2 val2 b e hf2 hres2 hh2 hu2
    have h1 : processLine st2 line2
        = match resolveCatalog key2 with
          | some (m2, caps2) =>
            match parseQ val2 with
            | some v2 =>
              ([Metric.sample ⟨m2.name, m2.valueType, v2, caps2.map fun c => String.mk c⟩],
                histStep st2 key2 val2)
            | none => ([], Except.error (CollectError.parseFloatError (String.mk val2)))
          | none => ([], histStep st2 key2 val2) := by
      unfold processLine
      rw [hf2]
    rw [h1, hres2]
    show (histStep st2 key2 val2) = _
    unfold histStep
    rw [hh2, hu2]

/-- Witness for C6 amended at a matching key with an unparsable value. -/
theorem c6_conversion_failures_witness :
    splitEq ("num.query.tcp=abc".data) = ["num.query.tcp".data, "abc".data]
    ∧ resolveCatalog ("num.query.tcp".data)
        = some (newUnboundMetric "query_tcp_total" ValueType.counter []
            [Tok.lit ("num.query.tcp".data)], [])
    ∧ parseQ ("abc".data) = none
    ∧ ((processLine initState "num.query.tcp=abc").2
          = Except.error (CollectError.parseFloatError (String.mk ("abc".data)))
        ∧ ∀ (st2 : HState) (line2 : String) (key2 val2 b e : List Char),
            splitEq line2.data = [key2, val2] →
            resolveCatalog key2 = none →
            histMatch key2 = some (b, e) →
            parseUint64 val2 = none →
            (processLine st2 line2).2
              = Except.error (CollectError.parseUintError (String.mk val2))) :=
  ⟨by decide!, by decide!, by decide!,
    c6_conversion_failures initState "num.query.tcp=abc"
      ("num.query.tcp".data) ("abc".data)
      (newUnboundMetric "query_tcp_total" ValueType.counter []
        [Tok.lit ("num.query.tcp".data)]) []
      (by decide!) (by decide!) (by decide!)⟩

/-- C7: on a successful run, the total count accumulates the counts of all
recognized bucket lines (modulo uint64), while the bucket mapping retains,
for each upper bound, only the count of the last recognized line with that
bound. -/
theorem c7_duplicate_bound_overwrites_count_accumulates (lines : List String)
    (ms : List Metric) (st : HState)
    (h : runLines initState lines = (ms, Except.ok st)) :
    st.count = ((recognizedBuckets lines).map Prod.snd).sum % 2 ^ 64
    ∧ ∀ k, lookupQ st.buckets k = lastVal (recognizedBuckets lines) k := by
  have hstate : st = (lines.filterMap lineBucketFull).foldl
      (fun s t => histApply s (some t)) initState := by
    rw [runLines_ok_state lines initState st ms h]
    exact foldl_histApply_filterMap lines initState
  have hsnd : (recognizedBuckets lines).map Prod.snd
      = (lines.filterMap lineBucketFull).map fun t => t.2.2 := by
    unfold recognizedBuckets
    rw [List.map_map]
    rfl
  constructor
  · rw [hstate, foldl_histApply_count (lines.filterMap lineBucketFull) initState (by decide)]
    rw [show initState.count = 0 from rfl, Nat.zero_add, ← hsnd]
  · intro k
    rw [hstate, foldl_histApply_buckets (lines.filterMap lineBucketFull) initState]
    rw [show initState.buckets = ([] : List (ℚ × Nat)) from rfl]
    have := lookupQ_foldl_insertOverwrite
      ((lines.filterMap lineBucketFull).map fun t => (t.2.1, t.2.2)) [] k
    unfold recognizedBuckets
    rw [this]
    cases lastVal ((lines.filterMap lineBucketFull).map fun t => (t.2.1, t.2.2)) k with
    | none => rfl
    | some v => rfl

/-- Witness for C7 at two recognized lines sharing the upper bound: the
emitted bucket keeps the later count 3 while the total is 5. -/
theorem c7_duplicate_bound_overwrites_count_accumulates_witness :
    runLines initState
        ["histogram.0.000000.to.0.000001=2", "histogram.0.000000.to.0.000001=3"]
      = ([], Except.ok ⟨5, 1 / 200000, [(1 / 1000000, 3)]⟩)
    ∧ ((⟨5, 1 / 200000, [(1 / 1000000, 3)]⟩ : HState).count
          = ((recognizedBuckets ["histogram.0.000000.to.0.000001=2",
              "histogram.0.000000.to.0.000001=3"]).map Prod.snd).sum % 2 ^ 64
        ∧ ∀ k, lookupQ (⟨5, 1 / 200000, [(1 / 1000000, 3)]⟩ : HState).buckets k
            = lastVal (recognizedBuckets ["histogram.0.000000.to.0.000001=2",
                "histogram.0.000000.to.0.000001=3"]) k) :=
  ⟨by decide!,
    c7_duplicate_bound_overwrites_count_accumulates
      ["histogram.0.000000.to.0.000001=2", "histogram.0.000000.to.0.000001=3"]
      [] ⟨5, 1 / 200000, [(1 / 1000000, 3)]⟩ (by decide!)⟩

/-- C8: a parsed line whose key matches neither any catalog pattern nor the
histogram pattern changes nothing: the iteration emits no metric, raises no
error and leaves the state unchanged, and inserting such a line anywhere in
a stream leaves the whole scrape output unchanged. -/
theorem c8_unmatched_key_silently_dropped (line : String) (key val : List Char)
    (hf : splitEq line.data = [key, val])
    (hcat : resolveCatalog key = none)
    (hhist : histMatch key = none) :
    (∀ st : HState, processLine st line = ([], Except.ok st))
    ∧ ∀ pre post : List String,
        collectFromReader (pre ++ line :: post) = collectFromReader (pre ++ post) := by
  have hpl : ∀ st : HState, processLine st line = ([], Except.ok st) := by
    intro st
    have h1 : processLine st line
        = match resolveCatalog key with
          | some (m2, caps2) =>
            match parseQ val with
            | some v2 =>
              ([Metric.sample ⟨m2.name, m2.valueType, v2, caps2.map fun c => String.mk c⟩],
                histStep st key val)
            | none => ([], Except.error (CollectError.parseFloatError (String.mk val)))
          | none => ([], histStep st key val) := by
      unfold processLine
      rw [hf]
    rw [h1, hcat]
    show ([], histStep st key val) = _
    unfold histStep
    rw [hhist]
  refine ⟨hpl, ?_⟩
  intro pre post
  have hruns : ∀ st : HState, runLines st (pre ++ line :: post) = runLines st (pre ++ post) := by
    intro st
    rw [runLines_append pre (line :: post) st, runLines_append pre post st]
    cases hr : runLines st pre with
    | mk ms1 r1 =>
      cases r1 with
      | error e => rfl
      | ok st1 =>
        show (ms1 ++ (runLines st1 (line :: post)).1, (runLines st1 (line :: post)).2) = _
        rw [runLines_cons_ok st1 line post [] st1 (hpl st1), List.nil_append]
  unfold collectFromReader
  rw [hruns initState]

/-- Witness for C8 at the unrecognized key of the spec. -/
theorem c8_unmatched_key_silently_dropped_witness :
    splitEq ("foo.bar=1".data) = ["foo.bar".data, "1".data]
    ∧ resolveCatalog ("foo.bar".data) = none
    ∧ histMatch ("foo.bar".data) = none
    ∧ ((∀ st : HState, processLine st "foo.bar=1" = ([], Except.ok st))
        ∧ ∀ pre post : List String,
            collectFromReader (pre ++ "foo.bar=1" :: post)
              = collectFromReader (pre ++ post)) :=
  ⟨by decide!, by decide!, by decide!,
    c8_unmatched_key_silently_dropped "foo.bar=1" ("foo.bar".data) ("1".data)
      (by decide!) (by decide!) (by decide!)⟩

/-- C9 counterexample: a stream with zero recognized histogram bucket lines
need not succeed: the malformed line aborts the scrape and no
HistogramSample is emitted at all. -/
theorem c9_counterexample_garbage_stream :
    collectFromReader ["garbage"] = ([], some (CollectError.badLine "garbage"))
    ∧ recognizedBuckets ["garbage"] = [] := by
  refine ⟨by decide!, by decide!⟩

/-- C9 amended: the empty stream succeeds and emits exactly one
HistogramSample with count 0, sum 0 and an empty bucket mapping and no
ordinary Samples; more generally every stream on which the scan loop
succeeds with zero recognized bucket lines still emits that same
HistogramSample after its ordinary Samples. -/
theorem c9_zero_buckets_histogram_still_emitted (lines : List String)
    (ms : List Metric) (st : HState)
    (h : runLines initState lines = (ms, Except.ok st))
    (hz : lines.filterMap lineBucketFull = []) :
    collectFromReader [] = ([Metric.histogram 0 0 []], none)
    ∧ collectFromReader lines = (ms ++ [Metric.histogram 0 0 []], none)
    ∧ ∀ m ∈ ms, ∃ smp, m = Metric.sample smp := by
  have hstate : st = initState := by
    rw [runLines_ok_state lines initState st ms h, foldl_histApply_filterMap lines initState,
      hz]
    rfl
  refine ⟨by decide!, ?_, ?_⟩
  · unfold collectFromReader
    rw [h, hstate]
    rfl
  · intro m hm
    exact runLines_samples lines initState m (by rw [h]; exact hm)

/-- Witness for C9 amended at a one-line stream with an unrecognized key. -/
theorem c9_zero_buckets_histogram_still_emitted_witness :
    runLines initState ["foo.bar=1"] = ([], Except.ok initState)
    ∧ (["foo.bar=1"] : List String).filterMap lineBucketFull = []
    ∧ (collectFromReader [] = ([Metric.histogram 0 0 []], none)
        ∧ collectFromReader ["foo.bar=1"] = ([] ++ [Metric.histogram 0 0 []], none)
        ∧ ∀ m ∈ ([] : List Metric), ∃ smp, m = Metric.sample smp) :=
  ⟨by decide!, by decide!,
    c9_zero_buckets_histogram_still_emitted ["foo.bar=1"] [] initState
      (by decide!) (by decide!)⟩

/-- Characterization of a successful nonempty take. -/
theorem takeWhile1_eq (p : Char → Bool) (cs d r : List Char)
    (h : takeWhile1 p cs = some (d, r)) :
    d = cs.takeWhile p ∧ d ≠ [] ∧ r = cs.dropWhile p := by
  unfold takeWhile1 at h
  split at h
  · exact absurd h (by simp)
  next d0 ds0 heq =>
    cases h
    exact ⟨heq.symm, by simp, rfl⟩

/-- A run of characters all satisfying the predicate is taken whole. -/
theorem takeWhile_all (p : Char → Bool) (l : List Char) (h : ∀ c ∈ l, p c) :
    l.takeWhile p = l ∧ l.dropWhile p = [] := by
  induction l with
  | nil => exact ⟨rfl, rfl⟩
  | cons c rest ih =>
    have hc := h c (List.mem_cons_self c rest)
    have := ih fun x hx => h x (List.mem_cons_of_mem c hx)
    rw [List.takeWhile_cons_of_pos hc, List.dropWhile_cons_of_pos hc, this.1]
    exact ⟨rfl, this.2⟩


/-- Shape of a successful decimal-group match: nonempty digits, a dot,
nonempty digits. -/
theorem matchGrp_decim_shape (cs cap rest : List Char)
    (h : matchGrp CapCls.decim cs = some (cap, rest)) :
    ∃ d1 d2, cap = d1 ++ '.' :: d2 ∧ d1 ≠ [] ∧ d2 ≠ []
      ∧ (∀ c ∈ d1, c.isDigit) ∧ (∀ c ∈ d2, c.isDigit) := by
  have h2 : (match takeWhile1 Char.isDigit cs with
    | some (d1, r1) =>
      match r1 with
      | '.' :: r2 =>
        match takeWhile1 Char.isDigit r2 with
        | some (d2, r3) => some (d1 ++ '.' :: d2, r3)
        | none => none
      | _ => none
    | none => none) = some (cap, rest) := h
  clear h
  split at h2
  next d1 r1 h1 =>
    obtain ⟨hd1, hne1, hr1⟩ := takeWhile1_eq Char.isDigit cs d1 r1 h1
    split at h2
    next r2 =>
      split at h2
      next d2 r3 hh2 =>
        obtain ⟨hd2, hne2, hr2⟩ := takeWhile1_eq Char.isDigit r2 d2 r3 hh2
        cases h2
        refine ⟨d1, d2, rfl, hne1, hne2, ?_, ?_⟩
        · intro c hc
          rw [hd1] at hc
          exact List.all_eq_true.mp List.all_takeWhile c hc
        · intro c hc
          rw [hd2] at hc
          exact List.all_eq_true.mp List.all_takeWhile c hc
      next => exact absurd h2 (by simp)
    next => exact absurd h2 (by simp)
  next => exact absurd h2 (by simp)

/-- Every capture returned by the pattern matcher comes from a successful
group match of one of the group tokens of the pattern. -/
theorem matchToks_caps_from_groups (ts : List Tok) :
    ∀ cs caps, matchToks ts cs = some caps →
      ∀ cap ∈ caps, ∃ g r1 r2, Tok.grp g ∈ ts ∧ matchGrp g r1 = some (cap, r2) := by
  induction ts with
  | nil =>
    intro cs caps h cap hcap
    cases cs with
    | nil =>
      cases h
      exact absurd hcap (by simp)
    | cons c l => exact absurd h (by simp [matchToks])
  | cons t ts ih =>
    intro cs caps h cap hcap
    cases t with
    | lit s =>
      rw [show matchToks (Tok.lit s :: ts) cs
          = match stripLit s cs with
            | some rest => matchToks ts rest
            | none => none from rfl] at h
      split at h
      next rest hs =>
        obtain ⟨g, r1, r2, hmem, hg⟩ := ih rest caps h cap hcap
        exact ⟨g, r1, r2, List.mem_cons_of_mem _ hmem, hg⟩
      next => exact absurd h (by simp)
    | grp g0 =>
      rw [show matchToks (Tok.grp g0 :: ts) cs
          = match matchGrp g0 cs with
            | some (cap2, rest) =>
              match matchToks ts rest with
              | some caps2 => some (cap2 :: caps2)
              | none => none
            | none => none from rfl] at h
      split at h
      next cap2 rest hg0 =>
        split at h
        next caps2 hrec =>
          cases h
          rcases List.mem_cons.mp hcap with he | ht
          · exact ⟨g0, cs, rest, List.mem_cons_self _ _, by rw [← he] at hg0; exact hg0⟩
          · obtain ⟨g, r1, r2, hmem, hg⟩ := ih rest caps2 hrec cap ht
            exact ⟨g, r1, r2, List.mem_cons_of_mem _ hmem, hg⟩
        next => exact absurd h (by simp)
      next => exact absurd h (by simp)

/-- The sign scanner passes through an input headed by a digit. -/
theorem floatSign_digit (c : Char) (l : List Char) (hd : c.isDigit) :
    floatSign (c :: l) = (1, c :: l) := by
  have h1 : c ≠ '+' := by
    intro he
    rw [he] at hd
    exact absurd hd (by decide)
  have h2 : c ≠ '-' := by
    intro he
    rw [he] at hd
    exact absurd hd (by decide)
  unfold floatSign
  split
  next r heq => exact absurd (List.cons.inj heq).1 h1
  next r heq => exact absurd (List.cons.inj heq).1 h2
  next => rfl

/-- The mantissa scanner accepts a digits-dot-digits run whole and leaves
nothing. -/
theorem parseMantissa_decimal (d1 d2 : List Char) (h1 : d1 ≠ [])
    (ha : ∀ c ∈ d1, c.isDigit) (hb : ∀ c ∈ d2, c.isDigit) :
    parseMantissa (d1 ++ '.' :: d2)
      = some ((digitsVal d1 : ℚ) + (digitsVal d2 : ℚ) / (10 : ℚ) ^ d2.length, []) := by
  have ht : (d1 ++ '.' :: d2).takeWhile Char.isDigit = d1 := by
    rw [List.takeWhile_append_of_pos ha,
      List.takeWhile_cons_of_neg (by decide), List.append_nil]
  have hd : (d1 ++ '.' :: d2).dropWhile Char.isDigit = '.' :: d2 := by
    rw [List.dropWhile_append_of_pos ha, List.dropWhile_cons_of_neg (by decide)]
  have ht2 := takeWhile_all Char.isDigit d2 hb
  unfold parseMantissa
  rw [ht, hd]
  show (if d1 = [] ∧ List.takeWhile Char.isDigit d2 = [] then none
    else some ((digitsVal d1 : ℚ) + (digitsVal (List.takeWhile Char.isDigit d2) : ℚ)
      / (10 : ℚ) ^ (List.takeWhile Char.isDigit d2).length,
      List.dropWhile Char.isDigit d2)) = _
  rw [ht2.1, ht2.2]
  rw [if_neg (by intro hand; exact h1 hand.1)]

/-- Every capture of the decimal bound group is accepted by the float
parser. -/
theorem parseQ_digits_dot_digits (d1 d2 : List Char)
    (h1 : d1 ≠ []) (ha : ∀ c ∈ d1, c.isDigit) (hb : ∀ c ∈ d2, c.isDigit) :
    (parseQ (d1 ++ '.' :: d2)).isSome := by
  cases d1 with
  | nil => exact absurd rfl h1
  | cons c0 l0 =>
    have hc0 := ha c0 (List.mem_cons_self c0 l0)
    unfold parseQ
    rw [List.cons_append, floatSign_digit c0 (l0 ++ '.' :: d2) hc0]
    show (match parseMantissa (c0 :: (l0 ++ '.' :: d2)) with
      | some (m, r1) =>
        match r1 with
        | [] => some ((1 : ℚ) * m)
        | 'e' :: r2 =>
          match parseExpPart r2 with
          | some (ex, r3) => if r3 = [] then some ((1 : ℚ) * m * qpow10 ex) else none
          | none => none
        | 'E' :: r2 =>
          match parseExpPart r2 with
          | some (ex, r3) => if r3 = [] then some ((1 : ℚ) * m * qpow10 ex) else none
          | none => none
        | _ => none
      | none => none).isSome
    rw [show c0 :: (l0 ++ '.' :: d2) = (c0 :: l0) ++ '.' :: d2 from rfl]
    rw [parseMantissa_decimal (c0 :: l0) d2 (by simp) ha hb]
    rfl

/-- C10: the two bounds captured by the histogram bucket pattern always
convert successfully (they have the digits-dot-digits shape), so the
discarded parse-error branches for the bounds are unreachable, and a
bucket-like line whose key does not fully match the pattern (and matches no
catalog entry) is silently dropped without touching the accumulator or
raising an error. -/
theorem c10_bucket_bounds_always_parse (key b e : List Char)
    (h : histMatch key = some (b, e)) :
    (parseQ b).isSome ∧ (parseQ e).isSome
    ∧ ∀ (st : HState) (line : String) (key2 val2 : List Char),
        splitEq line.data = [key2, val2] →
        resolveCatalog key2 = none →
        histMatch key2 = none →
        processLine st line = ([], Except.ok st) := by
  have hdrop : ∀ (st : HState) (line : String) (key2 val2 : List Char),
      splitEq line.data = [key2, val2] →
      resolveCatalog key2 = none →
      histMatch key2 = none →
      processLine st line = ([], Except.ok st) := by
    intro st line key2 val2 hf hcat hhist
    have h1 : processLine st line
        = match resolveCatalog key2 with
          | some (m2, caps2) =>
            match parseQ val2 with
            | some v2 =>
              ([Metric.sample ⟨m2.name, m2.valueType, v2, caps2.map fun c => String.mk c⟩],
                histStep st key2 val2)
            | none => ([], Except.error (CollectError.parseFloatError (String.mk val2)))
          | none => ([], histStep st key2 val2) := by
      unfold processLine
      rw [hf]
    rw [h1, hcat]
    show ([], histStep st key2 val2) = _
    unfold histStep
    rw [hhist]
  have hgrp : ∀ cap : List Char,
      (∃ g r1 r2, Tok.grp g ∈ histogramTokens ∧ matchGrp g r1 = some (cap, r2)) →
      (parseQ cap).isSome := by
    rintro cap ⟨g, r1, r2, hmem, hg⟩
    have hgd : g = CapCls.decim := by
      simpa [histogramTokens] using hmem
    rw [hgd] at hg
    obtain ⟨d1, d2, hcap, h1, h2, ha, hb⟩ := matchGrp_decim_shape r1 cap r2 hg
    rw [hcap]
    exact parseQ_digits_dot_digits d1 d2 h1 ha hb
  unfold histMatch at h
  split at h
  next b2 e2 heq =>
    cases h
    have hcaps := matchToks_caps_from_groups histogramTokens key [b, e] heq
    exact ⟨hgrp b (hcaps b (by simp)), hgrp e (hcaps e (by simp)), hdrop⟩
  next hne => exact absurd h (by simp)

/-- Witness for C10 at a recognized bucket key and a bucket-like key whose
bound is not of the digits-dot-digits shape. -/
theorem c10_bucket_bounds_always_parse_witness :
    histMatch ("histogram.0.000000.to.0.000001".data)
        = some ("0.000000".data, "0.000001".data)
    ∧ ((parseQ ("0.000000".data)).isSome ∧ (parseQ ("0.000001".data)).isSome
        ∧ ∀ (st : HState) (line : String) (key2 val2 : List Char),
            splitEq line.data = [key2, val2] →
            resolveCatalog key2 = none →
            histMatch key2 = none →
            processLine st line = ([], Except.ok st))
    ∧ histMatch ("histogram.x.to.0.1".data) = none
    ∧ processLine initState "histogram.x.to.0.1=5" = ([], Except.ok initState) :=
  ⟨by decide!,
    c10_bucket_bounds_always_parse ("histogram.0.000000.to.0.000001".data)
      ("0.000000".data) ("0.000001".data) (by decide!),
    by decide!, by decide!⟩
